import Mathlib

/-!
Shallow embedding of `src/public/main.js` (hamzasari/sample-project-2): a
client-side event queue that ingests batches from a push API, prioritises
animated gifts, deduplicates by id, expires stale messages, and drains at
most one event per 500 ms tick to the DOM renderer.

The source file contains three drafts of the same program.  Draft 1
(lines 1-242) factors the tick into named helpers; draft 3 (lines 365-504)
inlines the same logic.  JavaScript run-time errors (reading `.type` of
`undefined` when the queue is empty) are modelled with `Except.error`.
Timestamps and `now` are integer milliseconds; the JS division
`differenceInMilliseconds / 1000` is modelled exactly over `Rat`.
-/

namespace LiveChat

/-- `API_EVENT_TYPE`: the closed set of event kinds.  Only `ANIMATED_GIFT`
and `MESSAGE` get special handling; every other kind is ordinary. -/
inductive EventType where
  | animatedGift
  | message
  | other
deriving DecidableEq

/-- An event delivered by the push API: id, type, timestamp (ms), and an
opaque payload forwarded unchanged to the renderer. -/
structure Event where
  id : Nat
  type : EventType
  timestamp : Int
  payload : Nat
deriving DecidableEq

/-- Renderer (`dom_updates`) calls observable from the scheduler. -/
inductive RendererCall where
  | addMessage (e : Event)
  | animateGift (e : Event)
deriving DecidableEq

/-- Message of the JavaScript TypeError raised when `eventQueue[0].type` is
read while the queue is empty (`eventQueue[0]` is `undefined`). -/
def typeErrorMessage : String := "TypeError: Cannot read properties of undefined"

/-- `sortEvents` (main.js lines 70-82): partition a batch into animated-gift
events followed by all other events, each filter preserving batch order. -/
def sortEvents (events : List Event) : List Event :=
  events.filter (fun event => event.type == EventType.animatedGift) ++
    events.filter (fun event => !(event.type == EventType.animatedGift))

/-- One step of JS `Set` construction: insert an id unless already present
(JS sets iterate in insertion order). -/
def insertIntoSet (s : List Nat) (x : Nat) : List Nat :=
  if x ∈ s then s else s ++ [x]

/-- `new Set(ids)` materialised in iteration (= first-occurrence) order. -/
def setOfIds (ids : List Nat) : List Nat :=
  ids.foldl insertIntoSet []

/-- `removeDuplicateEvents` (main.js lines 54-59):
`Array.from(new Set(eventQueue.map(item => item.id))).map(id =>
eventQueue.find(item => item.id === id))`. -/
def removeDuplicateEvents (q : List Event) : List Event :=
  (setOfIds (q.map (fun item => item.id))).filterMap
    (fun id => q.find? (fun item => item.id == id))

/-- `getFirstNotAnimatedGiftEventIndex` (main.js lines 91-99): index of the
first entry whose type is not `ANIMATED_GIFT`; JS returns `-1` (here `none`)
when every entry is an animated gift. -/
def getFirstNotAnimatedGiftEventIndex : List Event → Option Nat
  | [] => none
  | e :: rest =>
    if !(e.type == EventType.animatedGift) then some 0
    else (getFirstNotAnimatedGiftEventIndex rest).map (fun i => i + 1)

/-- `calculateTimeDifferenceInSecondsAccordingToNow` (main.js lines 109-112):
`(now - timestamp) / 1000`, exact rational division of millisecond counts. -/
def calculateTimeDifferenceInSecondsAccordingToNow (now timestamp : Int) : Rat :=
  ((now - timestamp : Int) : Rat) / 1000

/-- `ignoreFirstEventWithTypeMessageOlderThan20Seconds` (main.js lines
130-142): while the front entry is a message strictly older than 20 seconds,
shift it off.  The JS `while` condition reads `eventQueue[0].type`, which
throws a TypeError when the queue has just been emptied — hence the
`Except.error` on `[]`. -/
def ignoreFirstEventWithTypeMessageOlderThan20Seconds (now : Int) :
    List Event → Except String (List Event)
  | [] => Except.error typeErrorMessage
  | e :: rest =>
    if e.type == EventType.message then
      if 20 < calculateTimeDifferenceInSecondsAccordingToNow now e.timestamp then
        ignoreFirstEventWithTypeMessageOlderThan20Seconds now rest
      else
        Except.ok (e :: rest)
    else
      Except.ok (e :: rest)

/-- `isAnyAnimatingGiftNotPlaying` (main.js lines 161-163): true when the
renderer reports no gift animation playing (`isAnimatingGiftUI`) and none
pending (`isPossiblyAnimatingGift`). -/
def isAnyAnimatingGiftNotPlaying (isAnimatingGiftUI isPossiblyAnimatingGift : Bool) : Bool :=
  !isAnimatingGiftUI && !isPossiblyAnimatingGift

/-- `processNormalEvent` (main.js lines 150-152): shift the front event
(given here as head `e` and tail `rest`) and `addMessage` it. -/
def processNormalEvent (e : Event) (rest : List Event) :
    List Event × List RendererCall :=
  (rest, [RendererCall.addMessage e])

/-- `processAnimatedGiftEvent` (main.js lines 171-175): shift the front
event, `addMessage` it, then `animateGift` it. -/
def processAnimatedGiftEvent (e : Event) (rest : List Event) :
    List Event × List RendererCall :=
  (rest, [RendererCall.addMessage e, RendererCall.animateGift e])

/-- `processFirstNotAnimatedGiftEvent` (main.js lines 183-190): splice out
the first non-animated-gift entry, if any, and `addMessage` it. -/
def processFirstNotAnimatedGiftEvent (q : List Event) :
    List Event × List RendererCall :=
  match getFirstNotAnimatedGiftEventIndex q with
  | none => (q, [])
  | some index =>
    match q[index]? with
    | some e => (q.eraseIdx index, [RendererCall.addMessage e])
    | none => (q, [])

/-- Observable result of one tick: the queue afterwards, the renderer calls
made (in order), and whether the tick stopped the drain interval. -/
structure TickResult where
  queue : List Event
  calls : List RendererCall
  stopTimer : Bool
deriving DecidableEq

/-- `checkEventQueueAndMakeNecessaryDomUpdate`, draft 1 (main.js lines
220-242).  `playing` and `pending` are the renderer's `isAnimatingGiftUI()`
and `isPossiblyAnimatingGift()` readings at call time.  The
`Except.ok []` case models `isFirstEventInQueueAnAnimatedGift` (lines
210-212) reading `eventQueue[0].type` of an empty queue; it is unreachable
because the expiry loop itself throws first. -/
def checkEventQueueAndMakeNecessaryDomUpdate (playing pending : Bool)
    (now : Int) (q : List Event) : Except String TickResult :=
  if q.length ≤ 0 then
    Except.ok ⟨q, [], true⟩
  else
    match ignoreFirstEventWithTypeMessageOlderThan20Seconds now q with
    | Except.error msg => Except.error msg
    | Except.ok [] => Except.error typeErrorMessage
    | Except.ok (e :: rest) =>
      if e.type == EventType.animatedGift then
        if isAnyAnimatingGiftNotPlaying playing pending then
          let (q2, calls) := processAnimatedGiftEvent e rest
          Except.ok ⟨q2, calls, false⟩
        else
          let (q2, calls) := processFirstNotAnimatedGiftEvent (e :: rest)
          Except.ok ⟨q2, calls, false⟩
      else
        let (q2, calls) := processNormalEvent e rest
        Except.ok ⟨q2, calls, false⟩

/-- `checkEventQueueAndMakeNecessaryDomUpdate`, draft 3 (main.js lines
473-504): same tick with the helper bodies written inline, as in the
source's third draft. -/
def checkEventQueueAndMakeNecessaryDomUpdateDraft3 (playing pending : Bool)
    (now : Int) (q : List Event) : Except String TickResult :=
  if q.length ≤ 0 then
    Except.ok ⟨q, [], true⟩
  else
    match ignoreFirstEventWithTypeMessageOlderThan20Seconds now q with
    | Except.error msg => Except.error msg
    | Except.ok [] => Except.error typeErrorMessage
    | Except.ok (e :: rest) =>
      if e.type == EventType.animatedGift then
        if !playing && !pending then
          Except.ok ⟨rest, [RendererCall.addMessage e, RendererCall.animateGift e], false⟩
        else
          match getFirstNotAnimatedGiftEventIndex (e :: rest) with
          | none => Except.ok ⟨e :: rest, [], false⟩
          | some index =>
            match (e :: rest)[index]? with
            | some x =>
              Except.ok ⟨(e :: rest).eraseIdx index, [RendererCall.addMessage x], false⟩
            | none => Except.ok ⟨e :: rest, [], false⟩
      else
        Except.ok ⟨rest, [RendererCall.addMessage e], false⟩

/-- Scheduler state: the queue plus whether the 500 ms drain interval is
active (`globalInterval !== null`). -/
structure SchedulerState where
  eventQueue : List Event
  globalInterval : Bool
deriving DecidableEq

/-- The `api.setEventHandler` callback (main.js lines 12-40): on a non-empty
batch, append the priority-sorted batch, deduplicate the whole queue by id,
and start the drain interval if it is not running.  The handler itself makes
no renderer calls, so its call trace is `[]`. -/
def handleEvents (s : SchedulerState) (events : List Event) :
    SchedulerState × List RendererCall :=
  if 0 < events.length then
    ({ eventQueue := removeDuplicateEvents (s.eventQueue ++ sortEvents events),
       globalInterval := true }, [])
  else
    (s, [])

/-- Run a sequence of ingestion batches from the initial state (empty queue,
no interval). -/
def runBatches (batches : List (List Event)) : SchedulerState :=
  batches.foldl (fun s events => (handleEvents s events).1) ⟨[], false⟩

/-- One drain-timer firing on the scheduler state: the draft-1 tick applied
to the queue, with `stopTimer` clearing `globalInterval`. -/
def tickStep (playing pending : Bool) (now : Int) (s : SchedulerState) :
    Except String (SchedulerState × List RendererCall) :=
  match checkEventQueueAndMakeNecessaryDomUpdate playing pending now s.eventQueue with
  | Except.ok r => Except.ok (⟨r.queue, s.globalInterval && !r.stopTimer⟩, r.calls)
  | Except.error msg => Except.error msg

/-- Keep, for each id, the first entry whose id is not in `seen`; later
entries with an already-kept id are dropped.  This is the recursive
description of first-occurrence deduplication, used to state and prove
properties of `removeDuplicateEvents`. -/
def dedupByIdAux (seen : List Nat) : List Event → List Event
  | [] => []
  | e :: rest =>
    if e.id ∈ seen then dedupByIdAux seen rest
    else e :: dedupByIdAux (e.id :: seen) rest

/-- First-occurrence deduplication by id, starting from nothing seen. -/
def dedupById (q : List Event) : List Event :=
  dedupByIdAux [] q

/-- The expiry test of the pruning loop: the entry is a message strictly
older than 20 seconds at time `now`. -/
def isExpiredMessage (now : Int) (e : Event) : Bool :=
  e.type == EventType.message &&
    decide (20 < calculateTimeDifferenceInSecondsAccordingToNow now e.timestamp)

/-- The event a renderer call refers to. -/
def eventOfCall : RendererCall → Event
  | RendererCall.addMessage e => e
  | RendererCall.animateGift e => e

/-- Whether a renderer call is a `displayMessage`-style emission. -/
def isAddMessage : RendererCall → Bool
  | RendererCall.addMessage _ => true
  | RendererCall.animateGift _ => false

/-- The strict 20-second comparison, restated over millisecond integers. -/
theorem twenty_lt_calcDiff_iff (now timestamp : Int) :
    20 < calculateTimeDifferenceInSecondsAccordingToNow now timestamp ↔
      20000 < now - timestamp := by
  unfold calculateTimeDifferenceInSecondsAccordingToNow
  rw [lt_div_iff₀ (by norm_num : (0 : Rat) < 1000)]
  norm_num
  exact_mod_cast Iff.rfl

/-- An entry kept by `dedupByIdAux seen` has an id outside `seen`. -/
theorem mem_dedupByIdAux_not_seen {e : Event} {q : List Event} :
    ∀ {seen : List Nat}, e ∈ dedupByIdAux seen q → e.id ∉ seen := by
  induction q with
  | nil => intro seen h; simp [dedupByIdAux] at h
  | cons a rest ih =>
    intro seen h
    by_cases ha : a.id ∈ seen
    · rw [dedupByIdAux, if_pos ha] at h
      exact ih h
    · rw [dedupByIdAux, if_neg ha] at h
      rcases List.mem_cons.mp h with rfl | h
      · exact ha
      · intro hseen
        exact ih h (List.mem_cons_of_mem _ hseen)

/-- Each entry kept by `dedupByIdAux` is the first entry of the original
list carrying its id. -/
theorem find?_of_mem_dedupByIdAux {e : Event} {q : List Event} :
    ∀ {seen : List Nat}, e ∈ dedupByIdAux seen q →
      q.find? (fun x => x.id == e.id) = some e := by
  induction q with
  | nil => intro seen h; simp [dedupByIdAux] at h
  | cons a rest ih =>
    intro seen h
    by_cases ha : a.id ∈ seen
    · rw [dedupByIdAux, if_pos ha] at h
      have hne : ¬(a.id == e.id) = true := by
        have := mem_dedupByIdAux_not_seen h
        simp only [beq_iff_eq]
        intro hEq
        exact this (hEq ▸ ha)
      have hstep : List.find? (fun x => x.id == e.id) (a :: rest) =
          List.find? (fun x => x.id == e.id) rest :=
        List.find?_cons_of_neg rest hne
      rw [hstep]
      exact ih h
    · rw [dedupByIdAux, if_neg ha] at h
      rcases List.mem_cons.mp h with rfl | h
      · have hstep : List.find? (fun x => x.id == e.id) (e :: rest) = some e :=
          List.find?_cons_of_pos rest (by simp)
        exact hstep
      · have hne : ¬(a.id == e.id) = true := by
          have := mem_dedupByIdAux_not_seen h
          simp only [beq_iff_eq]
          intro hEq
          exact this (by simp [hEq])
        have hstep : List.find? (fun x => x.id == e.id) (a :: rest) =
            List.find? (fun x => x.id == e.id) rest :=
          List.find?_cons_of_neg rest hne
        rw [hstep]
        exact ih h

/-- Folding JS `Set` insertion over the ids of `q` produces the accumulator
followed by the ids of the first-occurrence deduplication of `q`. -/
theorem foldl_insertIntoSet_eq (q : List Event) :
    ∀ (acc seen : List Nat), (∀ x, x ∈ acc ↔ x ∈ seen) →
      (q.map (fun item => item.id)).foldl insertIntoSet acc =
        acc ++ (dedupByIdAux seen q).map (fun item => item.id) := by
  induction q with
  | nil => intro acc seen _; simp [dedupByIdAux]
  | cons a rest ih =>
    intro acc seen hiff
    by_cases ha : a.id ∈ seen
    · have haacc : a.id ∈ acc := (hiff a.id).mpr ha
      simp only [List.map_cons, List.foldl_cons, insertIntoSet, if_pos haacc,
        dedupByIdAux, if_pos ha]
      exact ih acc seen hiff
    · have haacc : a.id ∉ acc := fun h => ha ((hiff a.id).mp h)
      simp only [List.map_cons, List.foldl_cons, insertIntoSet, if_neg haacc,
        dedupByIdAux, if_neg ha]
      rw [ih (acc ++ [a.id]) (a.id :: seen)
        (by intro x; simp [hiff x, or_comm])]
      simp

/-- The ids collected by the JS `Set` are exactly the ids of the
first-occurrence deduplication, in order. -/
theorem setOfIds_map_id (q : List Event) :
    setOfIds (q.map (fun item => item.id)) =
      (dedupById q).map (fun item => item.id) := by
  have := foldl_insertIntoSet_eq q [] [] (by simp)
  simpa [setOfIds, dedupById] using this

/-- A `filterMap` whose function returns each element unchanged is the
identity. -/
theorem filterMap_eq_self_of_some {α : Type} {l : List α} {f : α → Option α} :
    (∀ e ∈ l, f e = some e) → l.filterMap f = l := by
  induction l with
  | nil => intro _; simp
  | cons a rest ih =>
    intro h
    rw [List.filterMap_cons, h a (List.mem_cons_self a rest),
      ih fun e he => h e (List.mem_cons_of_mem _ he)]

/-- `removeDuplicateEvents` is first-occurrence deduplication by id. -/
theorem removeDuplicateEvents_eq_dedupById (q : List Event) :
    removeDuplicateEvents q = dedupById q := by
  unfold removeDuplicateEvents
  rw [setOfIds_map_id, List.filterMap_map]
  exact filterMap_eq_self_of_some fun e he => find?_of_mem_dedupByIdAux he

/-- `dedupByIdAux` only depends on the membership of `seen`. -/
theorem dedupByIdAux_congr {q : List Event} :
    ∀ {s1 s2 : List Nat}, (∀ x, x ∈ s1 ↔ x ∈ s2) →
      dedupByIdAux s1 q = dedupByIdAux s2 q := by
  induction q with
  | nil => intro s1 s2 _; rfl
  | cons a rest ih =>
    intro s1 s2 hiff
    by_cases ha : a.id ∈ s1
    · rw [dedupByIdAux, if_pos ha, dedupByIdAux, if_pos ((hiff a.id).mp ha)]
      exact ih hiff
    · rw [dedupByIdAux, if_neg ha, dedupByIdAux,
        if_neg (fun h => ha ((hiff a.id).mpr h))]
      congr 1
      exact ih (by intro x; simp [hiff x])

/-- Deduplicating a concatenation: the left part is deduplicated against
`seen`, the right part against `seen` plus every id of the left part. -/
theorem dedupByIdAux_append (a : List Event) :
    ∀ (b : List Event) (seen : List Nat),
      dedupByIdAux seen (a ++ b) =
        dedupByIdAux seen a ++
          dedupByIdAux (seen ++ a.map (fun item => item.id)) b := by
  induction a with
  | nil =>
    intro b seen
    simp only [List.nil_append, List.map_nil, List.append_nil, dedupByIdAux]
  | cons e rest ih =>
    intro b seen
    by_cases he : e.id ∈ seen
    · rw [List.cons_append, dedupByIdAux, if_pos he, dedupByIdAux, if_pos he,
        ih b seen]
      congr 1
      refine dedupByIdAux_congr fun x => ?_
      simp only [List.mem_append, List.map_cons, List.mem_cons]
      constructor
      · rintro (hx | hx)
        · exact Or.inl hx
        · exact Or.inr (Or.inr hx)
      · rintro (hx | rfl | hx)
        · exact Or.inl hx
        · exact Or.inl he
        · exact Or.inr hx
    · rw [List.cons_append, dedupByIdAux, if_neg he, dedupByIdAux, if_neg he,
        ih b (e.id :: seen)]
      simp only [List.cons_append, List.map_cons]
      congr 2
      refine dedupByIdAux_congr fun x => ?_
      simp only [List.mem_append, List.mem_cons]
      tauto

/-- Re-deduplicating an already-deduplicated left part changes nothing:
the key step for folding ingestion over many batches. -/
theorem dedupByIdAux_dedup_left (a : List Event) :
    ∀ (b : List Event) (seen : List Nat),
      dedupByIdAux seen (dedupByIdAux seen a ++ b) =
        dedupByIdAux seen (a ++ b) := by
  induction a with
  | nil => intro b seen; rfl
  | cons e rest ih =>
    intro b seen
    by_cases he : e.id ∈ seen
    · rw [dedupByIdAux, if_pos he, ih b seen, List.cons_append, dedupByIdAux,
        if_pos he]
    · rw [dedupByIdAux, if_neg he, List.cons_append, dedupByIdAux, if_neg he,
        ih b (e.id :: seen), List.cons_append, dedupByIdAux, if_neg he]

/-- Deduplication keeps a subsequence of the original list. -/
theorem dedupByIdAux_sublist {q : List Event} :
    ∀ {seen : List Nat}, (dedupByIdAux seen q).Sublist q := by
  induction q with
  | nil => intro seen; exact List.Sublist.refl []
  | cons a rest ih =>
    intro seen
    by_cases ha : a.id ∈ seen
    · rw [dedupByIdAux, if_pos ha]
      exact List.Sublist.cons a ih
    · rw [dedupByIdAux, if_neg ha]
      exact List.Sublist.cons₂ a ih

/-- The ids surviving deduplication are pairwise distinct. -/
theorem nodup_map_id_dedupByIdAux {q : List Event} :
    ∀ {seen : List Nat}, ((dedupByIdAux seen q).map (fun item => item.id)).Nodup := by
  induction q with
  | nil => intro seen; simp [dedupByIdAux]
  | cons a rest ih =>
    intro seen
    by_cases ha : a.id ∈ seen
    · rw [dedupByIdAux, if_pos ha]; exact ih
    · rw [dedupByIdAux, if_neg ha]
      simp only [List.map_cons, List.nodup_cons]
      refine ⟨fun hmem => ?_, ih⟩
      rcases List.mem_map.mp hmem with ⟨x, hx, hxid⟩
      exact mem_dedupByIdAux_not_seen hx (by simp [hxid])

/-- A list with pairwise-distinct ids, none of them seen, is untouched by
deduplication. -/
theorem dedupByIdAux_eq_self {q : List Event} :
    ∀ {seen : List Nat}, (q.map (fun item => item.id)).Nodup →
      (∀ e ∈ q, e.id ∉ seen) → dedupByIdAux seen q = q := by
  induction q with
  | nil => intro seen _ _; rfl
  | cons a rest ih =>
    intro seen hnodup hdisj
    have ha : a.id ∉ seen := hdisj a (List.mem_cons_self a rest)
    rw [dedupByIdAux, if_neg ha]
    congr 1
    simp only [List.map_cons, List.nodup_cons] at hnodup
    refine ih hnodup.2 fun e he => ?_
    simp only [List.mem_cons]
    rintro (heq | hseen)
    · exact hnodup.1 (heq ▸ List.mem_map_of_mem (fun item => item.id) he)
    · exact hdisj e (List.mem_cons_of_mem _ he) hseen

/-- Looking up an unseen id commutes with deduplication: the first match in
the deduplicated list is the first match in the original list. -/
theorem find?_dedupByIdAux {i : Nat} {q : List Event} :
    ∀ {seen : List Nat}, i ∉ seen →
      (dedupByIdAux seen q).find? (fun e => e.id == i) =
        q.find? (fun e => e.id == i) := by
  induction q with
  | nil => intro seen _; rfl
  | cons a rest ih =>
    intro seen hi
    by_cases ha : a.id ∈ seen
    · rw [dedupByIdAux, if_pos ha]
      have hne : ¬(a.id == i) = true := by
        simp only [beq_iff_eq]
        intro hEq
        exact hi (hEq ▸ ha)
      have hstep : List.find? (fun e => e.id == i) (a :: rest) =
          List.find? (fun e => e.id == i) rest :=
        List.find?_cons_of_neg rest hne
      rw [hstep]
      exact ih hi
    · rw [dedupByIdAux, if_neg ha]
      by_cases hai : (a.id == i) = true
      · have h1 : List.find? (fun e => e.id == i) (a :: dedupByIdAux (a.id :: seen) rest) =
            some a := List.find?_cons_of_pos _ hai
        have h2 : List.find? (fun e => e.id == i) (a :: rest) = some a :=
          List.find?_cons_of_pos rest hai
        rw [h1, h2]
      · have h1 : List.find? (fun e => e.id == i) (a :: dedupByIdAux (a.id :: seen) rest) =
            List.find? (fun e => e.id == i) (dedupByIdAux (a.id :: seen) rest) :=
          List.find?_cons_of_neg _ hai
        have h2 : List.find? (fun e => e.id == i) (a :: rest) =
            List.find? (fun e => e.id == i) rest :=
          List.find?_cons_of_neg rest hai
        rw [h1, h2]
        refine ih ?_
        simp only [List.mem_cons]
        rintro (heq | hseen)
        · exact hai (by simp [heq])
        · exact hi hseen

/-- Folding the ingest handler over batches computes the first-occurrence
deduplication of the concatenated, per-batch priority-sorted input. -/
theorem foldl_handleEvents_queue (bs : List (List Event)) :
    ∀ (s : SchedulerState) (F : List Event), s.eventQueue = dedupById F →
      (bs.foldl (fun s events => (handleEvents s events).1) s).eventQueue =
        dedupById (F ++ (bs.map sortEvents).flatten) := by
  induction bs with
  | nil =>
    intro s F h
    simpa using h
  | cons b rest ih =>
    intro s F h
    simp only [List.foldl_cons]
    by_cases hb : 0 < b.length
    · have hq : (handleEvents s b).1.eventQueue = dedupById (F ++ sortEvents b) := by
        simp only [handleEvents, if_pos hb]
        rw [h, removeDuplicateEvents_eq_dedupById]
        exact dedupByIdAux_dedup_left F (sortEvents b) []
      rw [ih (handleEvents s b).1 (F ++ sortEvents b) hq]
      simp [List.append_assoc]
    · have hbnil : b = [] := List.length_eq_zero.mp (Nat.eq_zero_of_not_pos hb)
      subst hbnil
      have hid : (handleEvents s []).1 = s := rfl
      rw [hid, ih s F h]
      simp [sortEvents]

/-- C2 (amended): after any sequence of ingestion batches the queue holds at
most one entry per id, and the retained entry for each id is the first
occurrence in the concatenation of the batches *after* each batch's
gift-first reordering (`sortEvents`).  Across distinct batches the earlier
batch's entry wins; within one batch the reordering decides which duplicate
comes first. -/
theorem dedup_retains_first_after_reorder (batches : List (List Event)) :
    ((runBatches batches).eventQueue.map (fun item => item.id)).Nodup ∧
    (runBatches batches).eventQueue = dedupById ((batches.map sortEvents).flatten) ∧
    ∀ i : Nat,
      (runBatches batches).eventQueue.find? (fun e => e.id == i) =
        ((batches.map sortEvents).flatten).find? (fun e => e.id == i) := by
  have hq : (runBatches batches).eventQueue =
      dedupById ((batches.map sortEvents).flatten) := by
    have := foldl_handleEvents_queue batches ⟨[], false⟩ [] rfl
    simpa [runBatches] using this
  refine ⟨?_, hq, fun i => ?_⟩
  · rw [hq]
    exact nodup_map_id_dedupByIdAux
  · rw [hq]
    exact find?_dedupByIdAux (by simp)

/-- C2 counterexample: one batch holding a message and then an animated gift
with the same id.  `sortEvents` moves the gift ahead of the message before
deduplication runs, so the retained entry is the gift — not the entry that
appeared first in the ingested batch. -/
theorem dedup_not_first_seen_counterexample :
    (runBatches [[⟨1, EventType.message, 0, 0⟩, ⟨1, EventType.animatedGift, 0, 1⟩]]).eventQueue =
      [⟨1, EventType.animatedGift, 0, 1⟩] ∧
    List.find? (fun e => e.id == 1)
      ([⟨1, EventType.message, 0, 0⟩, ⟨1, EventType.animatedGift, 0, 1⟩] : List Event) =
      some ⟨1, EventType.message, 0, 0⟩ ∧
    (⟨1, EventType.animatedGift, 0, 1⟩ : Event) ≠ ⟨1, EventType.message, 0, 0⟩ := by
  refine ⟨by decide, by decide, by decide⟩

/-- The expiry loop drops exactly the longest front run of strictly-expired
messages; it raises the modelled TypeError exactly when that drops the whole
queue (the JS `while` condition then reads `undefined.type`). -/
theorem ignoreFirst_eq_dropWhile (now : Int) (q : List Event) :
    ignoreFirstEventWithTypeMessageOlderThan20Seconds now q =
      if (q.dropWhile (isExpiredMessage now)).isEmpty then
        Except.error typeErrorMessage
      else
        Except.ok (q.dropWhile (isExpiredMessage now)) := by
  induction q with
  | nil => simp [ignoreFirstEventWithTypeMessageOlderThan20Seconds]
  | cons e rest ih =>
    by_cases hm : (e.type == EventType.message) = true
    · by_cases hold : 20 < calculateTimeDifferenceInSecondsAccordingToNow now e.timestamp
      · have hexp : isExpiredMessage now e = true := by
          simp [isExpiredMessage, hm, hold]
        rw [ignoreFirstEventWithTypeMessageOlderThan20Seconds, if_pos hm,
          if_pos hold, List.dropWhile_cons_of_pos hexp]
        exact ih
      · have hexp : ¬ isExpiredMessage now e = true := by
          simp [isExpiredMessage, hold]
        rw [ignoreFirstEventWithTypeMessageOlderThan20Seconds, if_pos hm,
          if_neg hold, List.dropWhile_cons_of_neg hexp]
        simp
    · have hexp : ¬ isExpiredMessage now e = true := by
        simp [isExpiredMessage]
        intro h
        exact absurd (by simp [h]) hm
      rw [ignoreFirstEventWithTypeMessageOlderThan20Seconds, if_neg hm,
        List.dropWhile_cons_of_neg hexp]
      simp

/-- A successful expiry pruning returns the dropWhile suffix, which is
non-empty. -/
theorem ignoreFirst_ok_elim {now : Int} {q q' : List Event}
    (h : ignoreFirstEventWithTypeMessageOlderThan20Seconds now q = Except.ok q') :
    q' = q.dropWhile (isExpiredMessage now) ∧ q' ≠ [] := by
  rw [ignoreFirst_eq_dropWhile] at h
  by_cases hEmp : (q.dropWhile (isExpiredMessage now)).isEmpty
  · rw [if_pos hEmp] at h
    exact absurd h (by simp)
  · rw [if_neg hEmp] at h
    have hq : q' = q.dropWhile (isExpiredMessage now) := (Except.ok.inj h).symm
    refine ⟨hq, ?_⟩
    rw [hq]
    intro hnil
    rw [hnil] at hEmp
    exact hEmp List.isEmpty_nil

/-- After a successful pruning that leaves `e :: rest`, the tick reduces to
the three-way dispatch on the front entry's type and the animation flags. -/
theorem tick_eq_of_prune {playing pending : Bool} {now : Int} {q : List Event}
    {e : Event} {rest : List Event}
    (h : ignoreFirstEventWithTypeMessageOlderThan20Seconds now q = Except.ok (e :: rest)) :
    checkEventQueueAndMakeNecessaryDomUpdate playing pending now q =
      (if e.type == EventType.animatedGift then
        if isAnyAnimatingGiftNotPlaying playing pending then
          Except.ok ⟨rest, [RendererCall.addMessage e, RendererCall.animateGift e], false⟩
        else
          Except.ok ⟨(processFirstNotAnimatedGiftEvent (e :: rest)).1,
            (processFirstNotAnimatedGiftEvent (e :: rest)).2, false⟩
      else
        Except.ok ⟨rest, [RendererCall.addMessage e], false⟩) := by
  have hq : ¬ q.length ≤ 0 := by
    cases q with
    | nil =>
      rw [ignoreFirstEventWithTypeMessageOlderThan20Seconds] at h
      exact absurd h (by simp)
    | cons a l => simp
  unfold checkEventQueueAndMakeNecessaryDomUpdate
  rw [if_neg hq, h]
  cases hp : processFirstNotAnimatedGiftEvent (e :: rest) with
  | mk q2 calls => simp [processAnimatedGiftEvent, processNormalEvent, hp]

/-- Every entry of a list with no non-gift index is an animated gift. -/
theorem gfi_none_all_gift {q : List Event}
    (h : getFirstNotAnimatedGiftEventIndex q = none) :
    ∀ e ∈ q, e.type = EventType.animatedGift := by
  induction q with
  | nil => intro e he; exact absurd he (List.not_mem_nil e)
  | cons a rest ih =>
    by_cases hc : (!(a.type == EventType.animatedGift)) = true
    · rw [getFirstNotAnimatedGiftEventIndex, if_pos hc] at h
      exact absurd h (by simp)
    · rw [getFirstNotAnimatedGiftEventIndex, if_neg hc] at h
      intro e he
      rcases List.mem_cons.mp he with rfl | he
      · simpa using hc
      · exact ih (by simpa using h) e he

/-- The index returned by `getFirstNotAnimatedGiftEventIndex` points at a
non-gift entry, and every earlier entry is an animated gift. -/
theorem gfi_some_spec {q : List Event} :
    ∀ {i : Nat}, getFirstNotAnimatedGiftEventIndex q = some i →
      ∃ x, q[i]? = some x ∧ ¬ x.type = EventType.animatedGift ∧
        ∀ j, j < i → ∃ y, q[j]? = some y ∧ y.type = EventType.animatedGift := by
  induction q with
  | nil => intro i h; exact absurd h (by simp [getFirstNotAnimatedGiftEventIndex])
  | cons a rest ih =>
    intro i h
    by_cases hc : (!(a.type == EventType.animatedGift)) = true
    · rw [getFirstNotAnimatedGiftEventIndex, if_pos hc] at h
      have hi : i = 0 := by simpa using h.symm
      subst hi
      exact ⟨a, List.getElem?_cons_zero, by simpa using hc, fun j hj => absurd hj (by omega)⟩
    · rw [getFirstNotAnimatedGiftEventIndex, if_neg hc] at h
      rcases Option.map_eq_some'.mp h with ⟨i', hi', rfl⟩
      rcases ih hi' with ⟨x, hx, hxt, hbefore⟩
      refine ⟨x, by simpa using hx, hxt, fun j hj => ?_⟩
      cases j with
      | zero => exact ⟨a, List.getElem?_cons_zero, by simpa using hc⟩
      | succ k =>
        rcases hbefore k (by omega) with ⟨y, hy, hyt⟩
        exact ⟨y, by simpa using hy, hyt⟩

/-- C1: the specification requires a tick whose expiry pruning removes every
entry to return the idle signal, with no renderer call and no error.  The
code instead re-reads `eventQueue[0].type` inside the expiry `while` loop
after the last entry is shifted off and raises a TypeError.  This theorem
evaluates the tick at the failing input: a single message aged 30 seconds. -/
theorem tick_crashes_when_expiry_empties_queue :
    checkEventQueueAndMakeNecessaryDomUpdate false false 30000
      [⟨1, EventType.message, 0, 0⟩] = Except.error typeErrorMessage := by
  have h : (20 : Rat) < calculateTimeDifferenceInSecondsAccordingToNow 30000 0 := by
    rw [twenty_lt_calcDiff_iff]
    decide
  simp [checkEventQueueAndMakeNecessaryDomUpdate,
    ignoreFirstEventWithTypeMessageOlderThan20Seconds, h]

/-- C3 counterexample: ticking on [expired message, expired message, fresh
ordinary event] removes all three entries — two expiry drops plus one
emission — so the queue length falls by three, not by at most one. -/
theorem tick_removes_three_counterexample :
    checkEventQueueAndMakeNecessaryDomUpdate false false 30000
      [⟨1, EventType.message, 0, 0⟩, ⟨2, EventType.message, 0, 0⟩,
        ⟨3, EventType.other, 0, 0⟩] =
      Except.ok ⟨[], [RendererCall.addMessage ⟨3, EventType.other, 0, 0⟩], false⟩ ∧
    ¬ (([⟨1, EventType.message, 0, 0⟩, ⟨2, EventType.message, 0, 0⟩,
        ⟨3, EventType.other, 0, 0⟩] : List Event).length ≤
          ([] : List Event).length + 1) := by
  constructor
  · have h : (20 : Rat) < calculateTimeDifferenceInSecondsAccordingToNow 30000 0 := by
      rw [twenty_lt_calcDiff_iff]
      decide
    simp [checkEventQueueAndMakeNecessaryDomUpdate,
      ignoreFirstEventWithTypeMessageOlderThan20Seconds, h, processNormalEvent]
  · decide

/-- C3 (amended): per successful tick at most one event is emitted (at most
one `addMessage` renderer call, and the pruned queue shrinks by at most one
entry); the expiry pruning may additionally drop any number of leading
expired messages, so the total queue-length decrease can exceed one. -/
theorem tick_emits_at_most_one (playing pending : Bool) (now : Int)
    (q : List Event) (r : TickResult)
    (h : checkEventQueueAndMakeNecessaryDomUpdate playing pending now q = Except.ok r) :
    (q.dropWhile (isExpiredMessage now)).length ≤ r.queue.length + 1 ∧
    (r.calls.filter isAddMessage).length ≤ 1 := by
  by_cases hq : q.length ≤ 0
  · have hqnil : q = [] := List.length_eq_zero.mp (Nat.le_zero.mp hq)
    subst hqnil
    rw [checkEventQueueAndMakeNecessaryDomUpdate, if_pos hq] at h
    injection h with h2
    subst h2
    simp
  · cases hres : ignoreFirstEventWithTypeMessageOlderThan20Seconds now q with
    | error msg =>
      rw [checkEventQueueAndMakeNecessaryDomUpdate, if_neg hq, hres] at h
      exact absurd h (by simp)
    | ok q' =>
      obtain ⟨hdrop, hne⟩ := ignoreFirst_ok_elim hres
      cases q' with
      | nil => exact absurd rfl hne
      | cons e rest =>
        rw [tick_eq_of_prune hres] at h
        rw [← hdrop]
        split_ifs at h with ht hidle
        · injection h with h2
          subst h2
          constructor
          · simp
          · simp [isAddMessage]
        · injection h with h2
          subst h2
          unfold processFirstNotAnimatedGiftEvent
          cases hidx : getFirstNotAnimatedGiftEventIndex (e :: rest) with
          | none => simp
          | some i =>
            cases hget : (e :: rest)[i]? with
            | none => simp [hget]
            | some x =>
              have hilt : i < (e :: rest).length := by
                rcases List.getElem?_eq_some_iff.mp hget with ⟨hlt, _⟩
                exact hlt
              have hlen := List.length_eraseIdx_of_lt hilt
              constructor
              · simp only [hget, hlen]
                simp only [List.length_cons] at hilt ⊢
                omega
              · simp [hget, isAddMessage]
        · injection h with h2
          subst h2
          constructor
          · simp
          · simp [isAddMessage]

/-- Witness for the amended C3 theorem at the empty queue. -/
theorem tick_emits_at_most_one_witness :
    (([] : List Event).dropWhile (isExpiredMessage 0)).length ≤
      (TickResult.mk [] [] true).queue.length + 1 ∧
    ((TickResult.mk [] [] true).calls.filter isAddMessage).length ≤ 1 :=
  tick_emits_at_most_one false false 0 [] ⟨[], [], true⟩ rfl

/-- C4: when the queue left by expiry pruning has an animated gift at the
front, the tick emits it as animated (removing it) exactly when both
animation flags read false; otherwise it removes and emits, as ordinary, the
first non-gift entry in queue order — leaving the gift at the front — and if
every entry is a gift it removes and emits nothing. -/
theorem gift_front_gating (playing pending : Bool) (now : Int)
    (q : List Event) (e : Event) (rest : List Event)
    (hprune : ignoreFirstEventWithTypeMessageOlderThan20Seconds now q =
      Except.ok (e :: rest))
    (hgift : e.type = EventType.animatedGift) :
    (isAnyAnimatingGiftNotPlaying playing pending = true →
      checkEventQueueAndMakeNecessaryDomUpdate playing pending now q =
        Except.ok ⟨rest, [RendererCall.addMessage e, RendererCall.animateGift e], false⟩) ∧
    (isAnyAnimatingGiftNotPlaying playing pending = false →
      (∀ i, getFirstNotAnimatedGiftEventIndex (e :: rest) = some i →
        ∃ x, (e :: rest)[i]? = some x ∧ ¬ x.type = EventType.animatedGift ∧
          (∀ j, j < i → ∃ y, (e :: rest)[j]? = some y ∧
            y.type = EventType.animatedGift) ∧
          checkEventQueueAndMakeNecessaryDomUpdate playing pending now q =
            Except.ok ⟨(e :: rest).eraseIdx i, [RendererCall.addMessage x], false⟩ ∧
          ((e :: rest).eraseIdx i).head? = some e) ∧
      (getFirstNotAnimatedGiftEventIndex (e :: rest) = none →
        checkEventQueueAndMakeNecessaryDomUpdate playing pending now q =
          Except.ok ⟨e :: rest, [], false⟩)) := by
  constructor
  · intro hidle
    rw [tick_eq_of_prune hprune, if_pos (by simp [hgift]), if_pos hidle]
  · intro hnot
    have hnot' : ¬ isAnyAnimatingGiftNotPlaying playing pending = true := by
      simp [hnot]
    constructor
    · intro i hidx
      rcases gfi_some_spec hidx with ⟨x, hx, hxt, hbefore⟩
      have hi0 : i ≠ 0 := by
        intro h0
        subst h0
        rw [List.getElem?_cons_zero] at hx
        injection hx with hx2
        exact hxt (hx2 ▸ hgift)
      refine ⟨x, hx, hxt, hbefore, ?_, ?_⟩
      · rw [tick_eq_of_prune hprune, if_pos (by simp [hgift]), if_neg hnot']
        simp [processFirstNotAnimatedGiftEvent, hidx, hx]
      · obtain ⟨k, rfl⟩ : ∃ k, i = k + 1 := ⟨i - 1, by omega⟩
        simp
    · intro hnone
      rw [tick_eq_of_prune hprune, if_pos (by simp [hgift]), if_neg hnot']
      simp [processFirstNotAnimatedGiftEvent, hnone]

/-- Witness for the C4 theorem: a single animated gift with the animation
idle is emitted as animated. -/
theorem gift_front_gating_witness :
    checkEventQueueAndMakeNecessaryDomUpdate false false 0
      [⟨1, EventType.animatedGift, 0, 0⟩] =
      Except.ok ⟨[], [RendererCall.addMessage ⟨1, EventType.animatedGift, 0, 0⟩,
        RendererCall.animateGift ⟨1, EventType.animatedGift, 0, 0⟩], false⟩ :=
  (gift_front_gating false false 0 [⟨1, EventType.animatedGift, 0, 0⟩]
    ⟨1, EventType.animatedGift, 0, 0⟩ [] rfl rfl).1 rfl

/-- C6: the pruning loop removes a front message exactly when its age
strictly exceeds 20 seconds — an age of exactly 20 seconds is kept — and it
stops at the first entry that is not a message or not strictly older; in
addition, a tick never renders a pruned entry: every renderer call of a
successful tick concerns an entry of the pruned queue. -/
theorem expiry_strict_and_silent (now : Int) (e : Event) (rest : List Event) :
    (e.type = EventType.message ∧
        20 < calculateTimeDifferenceInSecondsAccordingToNow now e.timestamp →
      ignoreFirstEventWithTypeMessageOlderThan20Seconds now (e :: rest) =
        ignoreFirstEventWithTypeMessageOlderThan20Seconds now rest) ∧
    (¬ (e.type = EventType.message ∧
        20 < calculateTimeDifferenceInSecondsAccordingToNow now e.timestamp) →
      ignoreFirstEventWithTypeMessageOlderThan20Seconds now (e :: rest) =
        Except.ok (e :: rest)) ∧
    (calculateTimeDifferenceInSecondsAccordingToNow now e.timestamp = 20 →
      ignoreFirstEventWithTypeMessageOlderThan20Seconds now (e :: rest) =
        Except.ok (e :: rest)) ∧
    (∀ (playing pending : Bool) (q q' : List Event) (r : TickResult),
      ignoreFirstEventWithTypeMessageOlderThan20Seconds now q = Except.ok q' →
      checkEventQueueAndMakeNecessaryDomUpdate playing pending now q = Except.ok r →
      ∀ c ∈ r.calls, eventOfCall c ∈ q') := by
  refine ⟨?_, ?_, ?_, ?_⟩
  · rintro ⟨hm, hold⟩
    rw [ignoreFirstEventWithTypeMessageOlderThan20Seconds,
      if_pos (by simp [hm]), if_pos hold]
  · intro hnot
    by_cases hm : (e.type == EventType.message) = true
    · have hold : ¬ 20 < calculateTimeDifferenceInSecondsAccordingToNow now e.timestamp :=
        fun hold => hnot ⟨by simpa using hm, hold⟩
      rw [ignoreFirstEventWithTypeMessageOlderThan20Seconds, if_pos hm, if_neg hold]
    · rw [ignoreFirstEventWithTypeMessageOlderThan20Seconds, if_neg hm]
  · intro heq
    by_cases hm : (e.type == EventType.message) = true
    · have hold : ¬ 20 < calculateTimeDifferenceInSecondsAccordingToNow now e.timestamp := by
        rw [heq]
        exact lt_irrefl 20
      rw [ignoreFirstEventWithTypeMessageOlderThan20Seconds, if_pos hm, if_neg hold]
    · rw [ignoreFirstEventWithTypeMessageOlderThan20Seconds, if_neg hm]
  · intro playing pending q q' r hprune htick c hc
    obtain ⟨hdrop, hne⟩ := ignoreFirst_ok_elim hprune
    cases q' with
    | nil => exact absurd rfl hne
    | cons a tail =>
      rw [tick_eq_of_prune hprune] at htick
      split_ifs at htick with ht hidle
      · injection htick with h2
        subst h2
        simp only at hc
        rcases List.mem_cons.mp hc with rfl | hc
        · exact List.mem_cons_self a tail
        · rcases List.mem_cons.mp hc with rfl | hc
          · exact List.mem_cons_self a tail
          · exact absurd hc (List.not_mem_nil c)
      · injection htick with h2
        subst h2
        simp only at hc
        cases hidx : getFirstNotAnimatedGiftEventIndex (a :: tail) with
        | none =>
          simp only [processFirstNotAnimatedGiftEvent, hidx] at hc
          exact absurd hc (List.not_mem_nil c)
        | some i =>
          cases hget : (a :: tail)[i]? with
          | none =>
            simp only [processFirstNotAnimatedGiftEvent, hidx, hget] at hc
            exact absurd hc (List.not_mem_nil c)
          | some x =>
            simp only [processFirstNotAnimatedGiftEvent, hidx, hget] at hc
            rcases List.mem_cons.mp hc with rfl | hc
            · exact List.getElem?_mem hget
            · exact absurd hc (List.not_mem_nil c)
      · injection htick with h2
        subst h2
        simp only at hc
        rcases List.mem_cons.mp hc with rfl | hc
        · exact List.mem_cons_self a tail
        · exact absurd hc (List.not_mem_nil c)

/-- Witness for the C6 theorem: a 30-second-old message at the front is
dropped, continuing the pruning on the remainder. -/
theorem expiry_strict_and_silent_witness :
    ignoreFirstEventWithTypeMessageOlderThan20Seconds 30000
      [⟨1, EventType.message, 0, 0⟩] =
      ignoreFirstEventWithTypeMessageOlderThan20Seconds 30000 [] :=
  (expiry_strict_and_silent 30000 ⟨1, EventType.message, 0, 0⟩ []).1
    ⟨rfl, (twenty_lt_calcDiff_iff 30000 0).mpr (by decide)⟩

/-- C7: the renderer-call sequence of a successful tick is empty, a single
`addMessage`, or an `addMessage` followed by `animateGift` of the same
event — the latter only when an animated gift is emitted with both
animation flags false. -/
theorem renderer_call_shapes (playing pending : Bool) (now : Int)
    (q : List Event) (r : TickResult)
    (h : checkEventQueueAndMakeNecessaryDomUpdate playing pending now q = Except.ok r) :
    r.calls = [] ∨
    (∃ x, r.calls = [RendererCall.addMessage x]) ∨
    (∃ x, r.calls = [RendererCall.addMessage x, RendererCall.animateGift x] ∧
      x.type = EventType.animatedGift ∧
      isAnyAnimatingGiftNotPlaying playing pending = true) := by
  by_cases hq : q.length ≤ 0
  · have hqnil : q = [] := List.length_eq_zero.mp (Nat.le_zero.mp hq)
    subst hqnil
    rw [checkEventQueueAndMakeNecessaryDomUpdate, if_pos hq] at h
    injection h with h2
    subst h2
    exact Or.inl rfl
  · cases hres : ignoreFirstEventWithTypeMessageOlderThan20Seconds now q with
    | error msg =>
      rw [checkEventQueueAndMakeNecessaryDomUpdate, if_neg hq, hres] at h
      exact absurd h (by simp)
    | ok q' =>
      obtain ⟨hdrop, hne⟩ := ignoreFirst_ok_elim hres
      cases q' with
      | nil => exact absurd rfl hne
      | cons e rest =>
        rw [tick_eq_of_prune hres] at h
        split_ifs at h with ht hidle
        · injection h with h2
          subst h2
          exact Or.inr (Or.inr ⟨e, rfl, by simpa using ht, hidle⟩)
        · injection h with h2
          subst h2
          cases hidx : getFirstNotAnimatedGiftEventIndex (e :: rest) with
          | none => simp [processFirstNotAnimatedGiftEvent, hidx]
          | some i =>
            cases hget : (e :: rest)[i]? with
            | none => simp [processFirstNotAnimatedGiftEvent, hidx, hget]
            | some x =>
              refine Or.inr (Or.inl ⟨x, ?_⟩)
              simp [processFirstNotAnimatedGiftEvent, hidx, hget]
        · injection h with h2
          subst h2
          exact Or.inr (Or.inl ⟨e, rfl⟩)

/-- Witness for the C7 theorem at the empty queue: no renderer calls. -/
theorem renderer_call_shapes_witness :
    (TickResult.mk [] [] true).calls = [] ∨
    (∃ x, (TickResult.mk [] [] true).calls = [RendererCall.addMessage x]) ∨
    (∃ x, (TickResult.mk [] [] true).calls =
        [RendererCall.addMessage x, RendererCall.animateGift x] ∧
      x.type = EventType.animatedGift ∧
      isAnyAnimatingGiftNotPlaying false false = true) :=
  renderer_call_shapes false false 0 [] ⟨[], [], true⟩ rfl

/-- Filtering the gift-first reordering for gifts gives exactly the batch's
gifts, in batch order. -/
theorem filter_gift_sortEvents (batch : List Event) :
    (sortEvents batch).filter (fun event => event.type == EventType.animatedGift) =
      batch.filter (fun event => event.type == EventType.animatedGift) := by
  unfold sortEvents
  rw [List.filter_append, List.filter_filter, List.filter_filter]
  simp [Bool.and_self, Bool.and_not_self]

/-- Filtering the gift-first reordering for non-gifts gives exactly the
batch's non-gifts, in batch order. -/
theorem filter_nongift_sortEvents (batch : List Event) :
    (sortEvents batch).filter (fun event => !(event.type == EventType.animatedGift)) =
      batch.filter (fun event => !(event.type == EventType.animatedGift)) := by
  unfold sortEvents
  rw [List.filter_append, List.filter_filter, List.filter_filter]
  simp [Bool.and_self, Bool.not_and_self]

/-- A subsequence of a concatenation whose left part satisfies `p` and whose
right part refutes `p` splits into its `p`-entries followed by its
non-`p`-entries. -/
theorem partition_of_sublist_append {t A B : List Event} (p : Event → Bool)
    (h : t.Sublist (A ++ B)) (hA : ∀ a ∈ A, p a = true)
    (hB : ∀ b ∈ B, p b = false) :
    t = t.filter p ++ t.filter (fun a => !(p a)) := by
  rcases List.sublist_append_iff.mp h with ⟨t1, t2, rfl, h1, h2⟩
  rw [List.filter_append, List.filter_append]
  have ht1p : t1.filter p = t1 :=
    List.filter_eq_self.mpr fun a ha => hA a (h1.subset ha)
  have ht2p : t2.filter p = [] :=
    List.filter_eq_nil_iff.mpr fun a ha => by simp [hB a (h2.subset ha)]
  have ht1n : t1.filter (fun a => !(p a)) = [] :=
    List.filter_eq_nil_iff.mpr fun a ha => by simp [hA a (h1.subset ha)]
  have ht2n : t2.filter (fun a => !(p a)) = t2 :=
    List.filter_eq_self.mpr fun a ha => by simp [hB a (h2.subset ha)]
  rw [ht1p, ht2p, ht1n, ht2n, List.append_nil, List.nil_append]

/-- C5: ingestion never moves the entries already in the queue — they stay,
in order, as a prefix — and the appended segment is a subsequence of
`sortEvents batch`: its gifts precede its non-gifts, and each group keeps
its relative order from the input batch. -/
theorem ingest_appends_reordered_batch (s : SchedulerState) (batch : List Event)
    (hnodup : (s.eventQueue.map (fun item => item.id)).Nodup) :
    ∃ t, (handleEvents s batch).1.eventQueue = s.eventQueue ++ t ∧
      t.Sublist (sortEvents batch) ∧
      (t.filter (fun event => event.type == EventType.animatedGift)).Sublist
        (batch.filter (fun event => event.type == EventType.animatedGift)) ∧
      (t.filter (fun event => !(event.type == EventType.animatedGift))).Sublist
        (batch.filter (fun event => !(event.type == EventType.animatedGift))) ∧
      t = t.filter (fun event => event.type == EventType.animatedGift) ++
        t.filter (fun event => !(event.type == EventType.animatedGift)) := by
  by_cases hb : 0 < batch.length
  · refine ⟨dedupByIdAux (s.eventQueue.map (fun item => item.id)) (sortEvents batch),
      ?_, ?_, ?_, ?_, ?_⟩
    · simp only [handleEvents, if_pos hb]
      rw [removeDuplicateEvents_eq_dedupById]
      unfold dedupById
      rw [dedupByIdAux_append s.eventQueue (sortEvents batch) []]
      rw [dedupByIdAux_eq_self hnodup (fun e _ => List.not_mem_nil e.id)]
      rw [List.nil_append]
    · exact dedupByIdAux_sublist
    · have hsub : (dedupByIdAux (s.eventQueue.map (fun item => item.id))
          (sortEvents batch)).Sublist (sortEvents batch) := dedupByIdAux_sublist
      have := hsub.filter (fun event => event.type == EventType.animatedGift)
      rwa [filter_gift_sortEvents] at this
    · have hsub : (dedupByIdAux (s.eventQueue.map (fun item => item.id))
          (sortEvents batch)).Sublist (sortEvents batch) := dedupByIdAux_sublist
      have := hsub.filter (fun event => !(event.type == EventType.animatedGift))
      rwa [filter_nongift_sortEvents] at this
    · have hsub : (dedupByIdAux (s.eventQueue.map (fun item => item.id))
          (sortEvents batch)).Sublist (sortEvents batch) := dedupByIdAux_sublist
      unfold sortEvents at hsub
      exact partition_of_sublist_append
        (fun event => event.type == EventType.animatedGift) hsub
        (fun a ha => (List.mem_filter.mp ha).2)
        (fun b hb => by
          have := (List.mem_filter.mp hb).2
          simpa using this)
  · refine ⟨[], ?_, List.nil_sublist _, List.nil_sublist _, List.nil_sublist _, rfl⟩
    simp [handleEvents, hb]

/-- Witness for the C5 theorem: ingesting a message-then-gift batch into the
empty queue. -/
theorem ingest_appends_reordered_batch_witness :
    ∃ t, (handleEvents ⟨[], false⟩
        [⟨1, EventType.message, 0, 0⟩, ⟨2, EventType.animatedGift, 0, 0⟩]).1.eventQueue =
      ([] : List Event) ++ t ∧
      t.Sublist (sortEvents
        [⟨1, EventType.message, 0, 0⟩, ⟨2, EventType.animatedGift, 0, 0⟩]) ∧
      (t.filter (fun event => event.type == EventType.animatedGift)).Sublist
        (List.filter (fun event => event.type == EventType.animatedGift)
          [⟨1, EventType.message, 0, 0⟩, ⟨2, EventType.animatedGift, 0, 0⟩]) ∧
      (t.filter (fun event => !(event.type == EventType.animatedGift))).Sublist
        (List.filter (fun event => !(event.type == EventType.animatedGift))
          [⟨1, EventType.message, 0, 0⟩, ⟨2, EventType.animatedGift, 0, 0⟩]) ∧
      t = t.filter (fun event => event.type == EventType.animatedGift) ++
        t.filter (fun event => !(event.type == EventType.animatedGift)) :=
  ingest_appends_reordered_batch ⟨[], false⟩
    [⟨1, EventType.message, 0, 0⟩, ⟨2, EventType.animatedGift, 0, 0⟩] (by simp)

/-- C8: any non-empty ingestion leaves the drain timer active (starting it
if it was inactive), and a tick that finds the queue empty deactivates the
timer, makes no renderer calls, and leaves the queue empty — so the timer is
never left running across a tick that found the queue empty, until a later
non-empty ingestion restarts it. -/
theorem timer_lifecycle :
    (∀ (s : SchedulerState) (events : List Event), events ≠ [] →
      (handleEvents s events).1.globalInterval = true) ∧
    (∀ (playing pending : Bool) (now : Int) (s : SchedulerState),
      s.eventQueue = [] →
      tickStep playing pending now s = Except.ok (⟨[], false⟩, [])) := by
  constructor
  · intro s events hne
    have hb : 0 < events.length := by
      cases events with
      | nil => exact absurd rfl hne
      | cons a l => simp
    simp [handleEvents, hb]
  · intro playing pending now s hq
    simp [tickStep, checkEventQueueAndMakeNecessaryDomUpdate, hq]

/-- Witness for the C8 theorem: one ingestion starting the timer, one tick
on an empty queue stopping it. -/
theorem timer_lifecycle_witness :
    (handleEvents ⟨[], false⟩ [⟨1, EventType.other, 0, 0⟩]).1.globalInterval = true ∧
    tickStep false false 0 ⟨[], true⟩ = Except.ok (⟨[], false⟩, []) :=
  ⟨timer_lifecycle.1 ⟨[], false⟩ [⟨1, EventType.other, 0, 0⟩] (by simp),
   timer_lifecycle.2 false false 0 ⟨[], true⟩ rfl⟩

/-- C9: ingesting an empty batch is a no-op — the queue and the timer state
are unchanged and no renderer call is made. -/
theorem ingest_empty_noop (s : SchedulerState) : handleEvents s [] = (s, []) := rfl

/-- C10: draft 1 of the tick (helpers factored out) and draft 3 (logic
inlined) are extensionally equal: same resulting queue, same renderer call
sequence, same timer action, and the same error behaviour, on every input. -/
theorem draft1_eq_draft3 (playing pending : Bool) (now : Int) (q : List Event) :
    checkEventQueueAndMakeNecessaryDomUpdate playing pending now q =
      checkEventQueueAndMakeNecessaryDomUpdateDraft3 playing pending now q := by
  unfold checkEventQueueAndMakeNecessaryDomUpdate
    checkEventQueueAndMakeNecessaryDomUpdateDraft3
  by_cases hq : q.length ≤ 0
  · rw [if_pos hq, if_pos hq]
  · rw [if_neg hq, if_neg hq]
    cases hres : ignoreFirstEventWithTypeMessageOlderThan20Seconds now q with
    | error msg => rfl
    | ok q' =>
      cases q' with
      | nil => rfl
      | cons e rest =>
        simp only [isAnyAnimatingGiftNotPlaying, processAnimatedGiftEvent,
          processNormalEvent, processFirstNotAnimatedGiftEvent]
        cases hidx : getFirstNotAnimatedGiftEventIndex (e :: rest) with
        | none => rfl
        | some i =>
          cases hget : (e :: rest)[i]? with
          | none => simp [hget]
          | some x => simp [hget]

end LiveChat
